import Mathlib

/-!
Verification of the 2D coordinate-keyed containers (`Vector2D`, `Map2D`,
`Set2D`) of a small geometry utility library.

A JavaScript `Map` is modelled as an association list in insertion order:
`set` on a present key updates the entry in place (keeping its position),
`set` on a fresh key appends at the end, `delete` removes the entry, and
`get` returns the first entry with the key.  On the duplicate-free states
every real program reaches, these list operations agree with the JS ones.
JavaScript numbers are modelled as rationals, and JS object references are
modelled by tagging each object value with an allocation identifier.
-/

namespace SimpleShapeMath

/-- JS `Map.prototype.get`: the value of the first entry with key `k`,
`none` standing for `undefined`. -/
def jsGet {K V : Type} [DecidableEq K] (l : List (K × V)) (k : K) : Option V :=
  (l.find? (fun p => decide (p.1 = k))).map Prod.snd

/-- JS `Map.prototype.has`. -/
def jsHas {K V : Type} [DecidableEq K] (l : List (K × V)) (k : K) : Bool :=
  l.any (fun p => decide (p.1 = k))

/-- JS `Map.prototype.set`: update in place when the key is present
(keeping its position), append a fresh entry otherwise. -/
def jsSet {K V : Type} [DecidableEq K] (l : List (K × V)) (k : K) (v : V) :
    List (K × V) :=
  if jsHas l k then l.map (fun p => if p.1 = k then (k, v) else p)
  else l ++ [(k, v)]

/-- JS `Map.prototype.delete` (on the duplicate-free reachable states,
filtering every entry with the key is the removal of the single one). -/
def jsDelete {K V : Type} [DecidableEq K] (l : List (K × V)) (k : K) :
    List (K × V) :=
  l.filter (fun p => !decide (p.1 = k))

/-- JS `Math.round`: round half toward positive infinity. -/
def jsRound (q : ℚ) : ℤ := ⌊q + 1 / 2⌋

/-- `Vector2D`: an immutable pair of numbers, defaulting to `(0, 0)`. -/
structure Vector2D where
  x : ℚ
  y : ℚ
  deriving DecidableEq, Repr

namespace Vector2D

/-- `Vector2D.zero()`. -/
def zero : Vector2D := ⟨0, 0⟩

/-- `Vector2D.isBetween(a, b, c)`: `c` lies on the segment `a`–`b`, with a
cross-product collinearity test at tolerance `0.1` and a dot-product
projection range check. -/
def isBetween (a b c : Vector2D) : Bool :=
  let epsilon : ℚ := 1 / 10
  let crossProduct := (c.y - a.y) * (b.x - a.x) - (c.x - a.x) * (b.y - a.y)
  if |crossProduct| > epsilon then false
  else
    let dotProduct := (c.x - a.x) * (b.x - a.x) + (c.y - a.y) * (b.y - a.y)
    if dotProduct < 0 then false
    else
      let squaredLengthBA :=
        (b.x - a.x) * (b.x - a.x) + (b.y - a.y) * (b.y - a.y)
      if dotProduct > squaredLengthBA then false
      else true

/-- One iteration of the `getNearSet` loop body: the 8 points at offset `e`
around `(x, y)`, pushed in the source's order. -/
def nearLoopBody (x y e : ℚ) : List Vector2D :=
  [⟨x - e, y - e⟩, ⟨x, y - e⟩, ⟨x + e, y - e⟩,
   ⟨x - e, y⟩, ⟨x + e, y⟩,
   ⟨x - e, y + e⟩, ⟨x, y + e⟩, ⟨x + e, y + e⟩]

/-- The `while (epsilon > 0)` loop of `getNearSet`, counting `epsilon`
down from `n`. -/
def nearLoop (x y : ℚ) : ℕ → List Vector2D
  | 0 => []
  | n + 1 => nearLoopBody x y (n + 1) ++ nearLoop x y n

/-- `Vector2D.getNearSet(pt, _epsilon)`: the loop above run from
`Math.abs(Math.round(_epsilon))`. -/
def getNearSet (pt : Vector2D) (epsilon0 : ℚ) : List Vector2D :=
  nearLoop pt.x pt.y (jsRound epsilon0).natAbs

end Vector2D

/-- `Map2D<T>`: a JS map from x-values to a JS map from y-values to `T`,
together with the incrementally tracked `_size` counter. -/
structure Map2D (T : Type) where
  tree : List (ℚ × List (ℚ × T))
  size : ℤ
  deriving DecidableEq, Repr

namespace Map2D

/-- `new Map2D()` with no arguments: the empty container. -/
def empty {T : Type} : Map2D T := ⟨[], 0⟩

/-- `Map2D.setXY(x, y, value)`. -/
def setXY {T : Type} (m : Map2D T) (x y : ℚ) (value : T) : Map2D T :=
  let ys := (jsGet m.tree x).getD []
  let size' := if ys.length = 0 ∨ jsHas ys y = false then m.size + 1 else m.size
  ⟨jsSet m.tree x (jsSet ys y value), size'⟩

/-- `Map2D.set(v, value)` for a `{x, y}`-shaped key. -/
def set {T : Type} (m : Map2D T) (v : ℚ × ℚ) (value : T) : Map2D T :=
  m.setXY v.1 v.2 value

/-- `Map2D.deleteXY(x, y)`: drops the whole x-bucket when it has at most
one entry, otherwise deletes `y` inside it; the size counter is decremented
unconditionally. -/
def deleteXY {T : Type} (m : Map2D T) (x y : ℚ) : Map2D T :=
  let ys := (jsGet m.tree x).getD []
  let tree' := if ys.length ≤ 1 then jsDelete m.tree x
               else jsSet m.tree x (jsDelete ys y)
  ⟨tree', m.size - 1⟩

/-- `Map2D.delete(v)` for a `{x, y}`-shaped key. -/
def delete {T : Type} (m : Map2D T) (v : ℚ × ℚ) : Map2D T :=
  m.deleteXY v.1 v.2

/-- `Map2D.hasXY(x, y)`. -/
def hasXY {T : Type} (m : Map2D T) (x y : ℚ) : Bool :=
  match jsGet m.tree x with
  | some ys => jsHas ys y
  | none => false

/-- `Map2D.has(v)`. -/
def has {T : Type} (m : Map2D T) (v : ℚ × ℚ) : Bool :=
  m.hasXY v.1 v.2

/-- `Map2D.getXY(x, y)`. -/
def getXY {T : Type} (m : Map2D T) (x y : ℚ) : Option T :=
  match jsGet m.tree x with
  | some ys => jsGet ys y
  | none => none

/-- `Map2D.get(v)`. -/
def get {T : Type} (m : Map2D T) (v : ℚ × ℚ) : Option T :=
  m.getXY v.1 v.2

/-- The sequence produced by the `keys()` generator: outer keys in list
order, inner keys in bucket order. -/
def keys {T : Type} (m : Map2D T) : List (ℚ × ℚ) :=
  m.tree.flatMap (fun p => p.2.map (fun q => (p.1, q.1)))

/-- The sequence produced by the `entries()` generator. -/
def entries {T : Type} (m : Map2D T) : List ((ℚ × ℚ) × T) :=
  m.tree.flatMap (fun p => p.2.map (fun q => ((p.1, q.1), q.2)))

/-- The sequence produced by the `values()` generator. -/
def values {T : Type} (m : Map2D T) : List T :=
  m.tree.flatMap (fun p => p.2.map Prod.snd)

/-- `Map2D.toJSON(elemToJSON)`: the entries traversal, each entry emitted
as an `[x, y, serialized value]` triple (the `x !== undefined` guard in the
source is always true on the traversal's arguments). -/
def toJSON {T E : Type} (m : Map2D T) (elemToJSON : T → E) :
    List (ℚ × ℚ × E) :=
  m.entries.map (fun e => (e.1.1, e.1.2, elemToJSON e.2))

/-- `Map2D.revive(a, reviveElem)`: `setXY` applied over the triples in
order, starting from the empty container. -/
def revive {T E : Type} (a : List (ℚ × ℚ × E)) (reviveElem : E → T) :
    Map2D T :=
  a.foldl (fun acc t => acc.setXY t.1 t.2.1 (reviveElem t.2.2)) empty

/-- `Map2D.equals(set2)`.  The JS code bails out on `!value`, i.e. when the
value looked up in the other map is `undefined` (modelled by `none`) or
falsy; `falsy` is the truthiness predicate of the value type `T`. -/
def equals {T : Type} [DecidableEq T] (falsy : T → Bool)
    (m1 m2 : Map2D T) : Bool :=
  if m1.size ≠ m2.size then false
  else m1.tree.all (fun p => p.2.all (fun q =>
    match m2.getXY p.1 q.1 with
    | none => false
    | some value => !falsy value && decide (value = q.2)))

/-- The bulk constructor `new Map2D(vectors, elements)`.  `vectors` and
`elements` are each either absent (`none`) or a JS array; the loop reads
`elements[i]`, which is `undefined` (here `none`) past the end of the
array, so the stored values live in `Option T`. -/
def mkMap2D {T : Type} (vectors : Option (List (ℚ × ℚ)))
    (elements : Option (List T)) : Map2D (Option T) :=
  match vectors, elements with
  | some vs, some es =>
    if 0 < vs.length then
      ⟨(List.range vs.length).foldl (fun tree i =>
          let v := vs.getD i (0, 0)
          let ys := (jsGet tree v.1).getD []
          jsSet tree v.1 (jsSet ys v.2 es[i]?)) [],
       (vs.length : ℤ)⟩
    else empty
  | _, _ => empty

/-- JS truthiness for a stored number: only `0` (and `NaN`) are falsy. -/
def jsFalsyInt : ℤ → Bool := fun v => decide (v = 0)

/-- Well-formedness of the reachable `Map2D` states: outer keys are
duplicate-free, each bucket's keys are duplicate-free, no bucket is empty,
and the tracked size is the number of stored entries. -/
def WF {T : Type} (m : Map2D T) : Prop :=
  (m.tree.map Prod.fst).Nodup ∧
  (∀ p ∈ m.tree, (p.2.map Prod.fst).Nodup) ∧
  (∀ p ∈ m.tree, p.2 ≠ []) ∧
  m.size = (m.tree.map (fun p => (p.2.length : ℤ))).sum

end Map2D

/-- A JS object with `x`, `y` fields; `ref` models the object's identity
(reference), so two structurally equal objects with different `ref` are
different JS objects. -/
structure JsObj where
  x : ℚ
  y : ℚ
  ref : ℕ
  deriving DecidableEq, Repr

/-- `Set2D`: a `Map2D` whose value at key `(x, y)` is the added object. -/
structure Set2D where
  tree : Map2D JsObj
  deriving DecidableEq, Repr

namespace Set2D

/-- `new Set2D()`. -/
def empty : Set2D := ⟨Map2D.empty⟩

/-- `Set2D.add(v)`: stores the passed object itself under its own
coordinates (`this.tree.set(v, v)`). -/
def add (s : Set2D) (v : JsObj) : Set2D :=
  ⟨s.tree.setXY v.x v.y v⟩

/-- `Set2D.addXY(x, y)`: stores a freshly constructed `Vector2D`
(`new Vector2D(x, y)`); the fresh allocation's identity is the `ref`
argument. -/
def addXY (s : Set2D) (x y : ℚ) (ref : ℕ) : Set2D :=
  ⟨s.tree.setXY x y ⟨x, y, ref⟩⟩

/-- `Set2D.hasXY(x, y)`. -/
def hasXY (s : Set2D) (x y : ℚ) : Bool :=
  s.tree.hasXY x y

end Set2D

/-- Spec-side description of one ring of `getNearSet`, following the spec's
words: the 8 surrounding points of integer ring `k` around `pt`, in
NW, N, NE, W, E, SW, S, SE order. -/
def Vector2D.specRing (pt : Vector2D) (k : ℚ) : List Vector2D :=
  [⟨pt.x - k, pt.y - k⟩, ⟨pt.x, pt.y - k⟩, ⟨pt.x + k, pt.y - k⟩,
   ⟨pt.x - k, pt.y⟩, ⟨pt.x + k, pt.y⟩,
   ⟨pt.x - k, pt.y + k⟩, ⟨pt.x, pt.y + k⟩, ⟨pt.x + k, pt.y + k⟩]

/-- Spec-side description of `getNearSet`, following the spec's words: for
each integer ring from `n` down to `1`, in descending order, the 8
surrounding points of that ring, outer rings first. -/
def Vector2D.specNearSet (pt : Vector2D) (n : ℕ) : List Vector2D :=
  (List.range n).reverse.flatMap (fun i => Vector2D.specRing pt ((i : ℚ) + 1))

/-- The entries traversal emitted as flat `(x, y, value)` triples; this is
`toJSON` with the identity serializer, used to relate `toJSON` and
`revive`. -/
def Map2D.treeTriples {T : Type} (m : Map2D T) : List (ℚ × ℚ × T) :=
  m.tree.flatMap (fun p => p.2.map (fun q => (p.1, q.1, q.2)))

/-- The `revive` fold generalized to an arbitrary starting container. -/
def Map2D.reviveFrom {T E : Type} (reviveElem : E → T) (acc : Map2D T)
    (a : List (ℚ × ℚ × E)) : Map2D T :=
  a.foldl (fun acc t => acc.setXY t.1 t.2.1 (reviveElem t.2.2)) acc

/-! ## Lemmas about the JS `Map` model -/

section JsMapLemmas

variable {K V : Type} [DecidableEq K]

theorem jsHas_eq_false_iff {l : List (K × V)} {k : K} :
    jsHas l k = false ↔ ∀ p ∈ l, p.1 ≠ k := by
  simp [jsHas]

theorem jsHas_append {l1 l2 : List (K × V)} {k : K} :
    jsHas (l1 ++ l2) k = (jsHas l1 k || jsHas l2 k) := by
  simp [jsHas]

theorem jsGet_eq_none {l : List (K × V)} {k : K} (h : jsHas l k = false) :
    jsGet l k = none := by
  have h' := jsHas_eq_false_iff.mp h
  unfold jsGet
  rw [List.find?_eq_none.mpr (fun p hp => by simpa using h' p hp)]
  rfl

theorem jsGet_append_left {l1 l2 : List (K × V)} {k : K}
    (h : jsHas l1 k = false) : jsGet (l1 ++ l2) k = jsGet l2 k := by
  have h' := jsHas_eq_false_iff.mp h
  unfold jsGet
  rw [List.find?_append,
    List.find?_eq_none.mpr (fun p hp => by simpa using h' p hp)]
  simp

theorem jsGet_singleton {k : K} {v : V} : jsGet [(k, v)] k = some v := by
  simp [jsGet]

theorem jsGet_decomp {l : List (K × V)} {k : K} {b : V}
    (h : jsGet l k = some b) :
    ∃ l1 l2, l = l1 ++ (k, b) :: l2 ∧ jsHas l1 k = false := by
  unfold jsGet at h
  obtain ⟨pr, hfind, hsnd⟩ := Option.map_eq_some'.mp h
  obtain ⟨hp, as, bs, hdec, hall⟩ := List.find?_eq_some.mp hfind
  have hk : pr.1 = k := by simpa using hp
  refine ⟨as, bs, ?_, ?_⟩
  · rw [hdec]
    obtain ⟨k0, v0⟩ := pr
    simp only at hk hsnd
    rw [hk, hsnd]
  · rw [jsHas_eq_false_iff]
    intro p hpmem
    have := hall p hpmem
    simpa using this

theorem jsHas_of_jsGet_eq_some {l : List (K × V)} {k : K} {b : V}
    (h : jsGet l k = some b) : jsHas l k = true := by
  obtain ⟨l1, l2, rfl, -⟩ := jsGet_decomp h
  simp [jsHas]

theorem map_update_of_not_has {l : List (K × V)} {k : K} (v : V)
    (h : jsHas l k = false) :
    l.map (fun p => if p.1 = k then (k, v) else p) = l := by
  have h' := jsHas_eq_false_iff.mp h
  have : ∀ p ∈ l, (if p.1 = k then (k, v) else p) = p := by
    intro p hp
    simp [h' p hp]
  rw [List.map_congr_left this, List.map_id']

theorem jsSet_of_not_has {l : List (K × V)} {k : K} {v : V}
    (h : jsHas l k = false) : jsSet l k v = l ++ [(k, v)] := by
  simp [jsSet, h]

theorem jsSet_decomp {l1 l2 : List (K × V)} {k : K} {b v : V}
    (h1 : jsHas l1 k = false) (h2 : jsHas l2 k = false) :
    jsSet (l1 ++ (k, b) :: l2) k v = l1 ++ (k, v) :: l2 := by
  have hhas : jsHas (l1 ++ (k, b) :: l2) k = true := by
    simp [jsHas]
  simp only [jsSet, hhas, if_true, List.map_append, List.map_cons,
    map_update_of_not_has v h1, map_update_of_not_has v h2]

theorem jsGet_isSome_of_jsHas {l : List (K × V)} {k : K}
    (h : jsHas l k = true) : ∃ b, jsGet l k = some b := by
  unfold jsHas at h
  obtain ⟨p, hp, hk⟩ := List.any_eq_true.mp h
  have hsome : (l.find? (fun p => decide (p.1 = k))).isSome := by
    apply List.find?_isSome.mpr
    exact ⟨p, hp, hk⟩
  obtain ⟨pr, hpr⟩ := Option.isSome_iff_exists.mp hsome
  exact ⟨pr.2, by unfold jsGet; rw [hpr]; rfl⟩

theorem jsGet_jsSet_self (l : List (K × V)) (k : K) (v : V) :
    jsGet (jsSet l k v) k = some v := by
  rcases h : jsHas l k with _ | _
  · rw [jsSet_of_not_has h, jsGet_append_left h, jsGet_singleton]
  · obtain ⟨b, hb⟩ := jsGet_isSome_of_jsHas h
    obtain ⟨l1, l2, rfl, h1⟩ := jsGet_decomp hb
    simp only [jsSet, h, if_true, List.map_append, List.map_cons]
    rw [map_update_of_not_has v h1]
    rw [jsGet_append_left h1]
    simp [jsGet]

theorem jsHas_jsDelete_self (l : List (K × V)) (k : K) :
    jsHas (jsDelete l k) k = false := by
  rw [jsHas_eq_false_iff]
  intro p hp
  have := List.of_mem_filter hp
  simpa using this

theorem jsGet_jsDelete_self (l : List (K × V)) (k : K) :
    jsGet (jsDelete l k) k = none :=
  jsGet_eq_none (jsHas_jsDelete_self l k)

theorem jsDelete_of_not_has {l : List (K × V)} {k : K}
    (h : jsHas l k = false) : jsDelete l k = l := by
  apply List.filter_eq_self.mpr
  intro p hp
  simpa using jsHas_eq_false_iff.mp h p hp

theorem length_jsDelete {l : List (K × V)} {k : K}
    (hnd : (l.map Prod.fst).Nodup) (h : jsHas l k = true) :
    (jsDelete l k).length + 1 = l.length := by
  induction l with
  | nil => simp [jsHas] at h
  | cons hd tl ih =>
    rw [List.map_cons, List.nodup_cons] at hnd
    by_cases hk : hd.1 = k
    · have htl : jsHas tl k = false := by
        rw [jsHas_eq_false_iff]
        intro p hp hpk
        apply hnd.1
        have hmem : p.1 ∈ tl.map Prod.fst := List.mem_map_of_mem Prod.fst hp
        rw [hpk, ← hk] at hmem
        exact hmem
      have hdel : jsDelete tl k = tl := jsDelete_of_not_has htl
      unfold jsDelete at hdel ⊢
      rw [List.filter_cons]
      rw [show (!decide (hd.1 = k)) = false by simp [hk]]
      rw [hdel]
      simp
    · have htl : jsHas tl k = true := by
        unfold jsHas at h ⊢
        simpa [hk] using h
      have h2 := ih hnd.2 htl
      unfold jsDelete at h2 ⊢
      rw [List.filter_cons]
      simp [hk]
      omega

theorem map_fst_jsSet_of_has {l : List (K × V)} {k : K} {v : V}
    (h : jsHas l k = true) :
    (jsSet l k v).map Prod.fst = l.map Prod.fst := by
  simp only [jsSet, h, if_true, List.map_map]
  apply List.map_congr_left
  intro p _
  by_cases hk : p.1 = k
  · simp [hk]
  · simp [hk]

theorem jsGet_eq_some_of_mem_nodup {l : List (K × V)} {k : K} {b : V}
    (hnd : (l.map Prod.fst).Nodup) (hm : (k, b) ∈ l) :
    jsGet l k = some b := by
  induction l with
  | nil => simp at hm
  | cons hd tl ih =>
    rw [List.map_cons, List.nodup_cons] at hnd
    rcases List.mem_cons.mp hm with heq | hmem
    · subst heq
      simp [jsGet]
    · have hk : hd.1 ≠ k := by
        intro hk
        exact hnd.1 (hk ▸ show k ∈ tl.map Prod.fst from
          List.mem_map_of_mem Prod.fst hmem)
      unfold jsGet
      rw [List.find?_cons_of_neg _ (by simpa using hk)]
      exact ih hnd.2 hmem

end JsMapLemmas

/-! ## Lemmas about `Map2D` operations -/

theorem getXY_setXY_self {T : Type} (m : Map2D T) (x y : ℚ) (v : T) :
    (m.setXY x y v).getXY x y = some v := by
  unfold Map2D.getXY Map2D.setXY
  simp only [jsGet_jsSet_self]

/-! ## Claim theorems -/

/-- C10: when the two segment endpoints `a` and `b` coincide, the cross
product and the dot product both vanish, no rejection branch of
`Vector2D.isBetween` fires, and the degenerate test accepts every point
`c`. -/
theorem isBetween_degenerate_true (a b c : Vector2D)
    (hx : a.x = b.x) (hy : a.y = b.y) :
    Vector2D.isBetween a b c = true := by
  unfold Vector2D.isBetween
  rw [← hx, ← hy]
  norm_num

theorem isBetween_degenerate_true_witness :
    Vector2D.isBetween ⟨3, 4⟩ ⟨3, 4⟩ ⟨1000, -555⟩ = true :=
  isBetween_degenerate_true ⟨3, 4⟩ ⟨3, 4⟩ ⟨1000, -555⟩ rfl rfl

/-- C2: `deleteXY` (and `delete` with an `{x, y}` key) decrements the size
counter unconditionally, so deleting a coordinate that is not present
still decrements `size` by one. -/
theorem deleteXY_absent_decrements_size {T : Type} (m : Map2D T) (x y : ℚ)
    (_habs : m.hasXY x y = false) :
    (m.deleteXY x y).size = m.size - 1 ∧
    (m.delete (x, y)).size = m.size - 1 :=
  ⟨rfl, rfl⟩

theorem deleteXY_absent_decrements_size_witness :
    ((Map2D.empty.setXY 5 6 0 : Map2D ℕ).hasXY 5 7 = false) ∧
    ((Map2D.empty.setXY 5 6 0 : Map2D ℕ).deleteXY 5 7).size =
      (Map2D.empty.setXY 5 6 0 : Map2D ℕ).size - 1 ∧
    ((Map2D.empty.setXY 5 6 0 : Map2D ℕ).delete (5, 7)).size =
      (Map2D.empty.setXY 5 6 0 : Map2D ℕ).size - 1 :=
  ⟨by decide, deleteXY_absent_decrements_size _ 5 7 (by decide)⟩

/-- C9: when the bucket under `x` holds exactly the one entry `(y1, v)`,
`deleteXY x y2` with `y2 ≠ y1` takes the `size <= 1` branch and deletes the
whole bucket, so the present key `(x, y1)` disappears even though `(x, y2)`
was never present. -/
theorem deleteXY_absent_erases_sibling {T : Type} (m : Map2D T)
    (x y1 y2 : ℚ) (v : T)
    (hb : jsGet m.tree x = some [(y1, v)]) (hne : y2 ≠ y1) :
    m.hasXY x y1 = true ∧ m.hasXY x y2 = false ∧
    (m.deleteXY x y2).hasXY x y1 = false := by
  have hne' : y1 ≠ y2 := Ne.symm hne
  refine ⟨?_, ?_, ?_⟩
  · unfold Map2D.hasXY
    rw [hb]
    simp [jsHas]
  · unfold Map2D.hasXY
    rw [hb]
    simp [jsHas, hne']
  · unfold Map2D.deleteXY Map2D.hasXY
    simp only [hb, Option.getD_some, List.length_singleton, le_refl,
      if_true, jsGet_jsDelete_self]

theorem deleteXY_absent_erases_sibling_witness :
    ((Map2D.empty.setXY 5 6 0 : Map2D ℕ).hasXY 5 6 = true ∧
     (Map2D.empty.setXY 5 6 0 : Map2D ℕ).hasXY 5 7 = false ∧
     ((Map2D.empty.setXY 5 6 0 : Map2D ℕ).deleteXY 5 7).hasXY 5 6 = false) :=
  deleteXY_absent_erases_sibling _ 5 6 7 0 (by decide) (by decide)

/-- C5: deleting a present key `(x, y)` makes `hasXY x y` false; when the
bucket under `x` held only that key the bucket itself is removed from the
tree; and on bucket-duplicate-free states the deletion leaves no empty
bucket behind. -/
theorem deleteXY_present_key {T : Type} (m : Map2D T) (x y : ℚ)
    (hpres : m.hasXY x y = true)
    (hnd : ∀ p ∈ m.tree, (p.2.map Prod.fst).Nodup) :
    (m.deleteXY x y).hasXY x y = false ∧
    (∀ v, jsGet m.tree x = some [(y, v)] →
      jsHas (m.deleteXY x y).tree x = false) ∧
    ((∀ p ∈ m.tree, p.2 ≠ []) →
      ∀ p ∈ (m.deleteXY x y).tree, p.2 ≠ []) := by
  unfold Map2D.hasXY at hpres
  rcases hys : jsGet m.tree x with _ | ys
  · rw [hys] at hpres
    exact absurd hpres (by simp)
  rw [hys] at hpres
  by_cases hlen : ys.length ≤ 1
  · refine ⟨?_, ?_, ?_⟩
    · unfold Map2D.deleteXY Map2D.hasXY
      simp only [hys, Option.getD_some, hlen, if_true, jsGet_jsDelete_self]
    · intro v hv
      unfold Map2D.deleteXY
      simp only [hys, Option.getD_some, hlen, if_true]
      exact jsHas_jsDelete_self _ x
    · intro hne p hp
      unfold Map2D.deleteXY at hp
      simp only [hys, Option.getD_some, hlen, if_true] at hp
      exact hne p (List.mem_of_mem_filter hp)
  · have hmem : (x, ys) ∈ m.tree := by
      obtain ⟨l1, l2, hdec, -⟩ := jsGet_decomp hys
      rw [hdec]
      simp
    have hhas : jsHas m.tree x = true := jsHas_of_jsGet_eq_some hys
    refine ⟨?_, ?_, ?_⟩
    · unfold Map2D.deleteXY Map2D.hasXY
      simp only [hys, Option.getD_some, hlen, if_false,
        jsGet_jsSet_self, jsHas_jsDelete_self]
    · intro v hv
      obtain rfl : ys = [(y, v)] := Option.some.inj hv
      simp at hlen
    · intro hne p hp
      unfold Map2D.deleteXY at hp
      simp only [hys, Option.getD_some, hlen, if_false, jsSet, hhas,
        if_true, List.mem_map] at hp
      obtain ⟨q, hq, rfl⟩ := hp
      by_cases hqx : q.1 = x
      · simp only [hqx, if_true]
        have hys_nd := hnd (x, ys) hmem
        have hlen2 := length_jsDelete hys_nd hpres
        intro habs
        rw [habs] at hlen2
        simp at hlen2
        omega
      · simp only [hqx, if_false]
        exact hne q hq

theorem deleteXY_present_key_witness :
    (((Map2D.empty.setXY 5 6 0).setXY 5 8 1 : Map2D ℕ).deleteXY 5 6).hasXY 5 6
        = false ∧
    (∀ v, jsGet ((Map2D.empty.setXY 5 6 0).setXY 5 8 1 : Map2D ℕ).tree 5
        = some [(6, v)] →
      jsHas (((Map2D.empty.setXY 5 6 0).setXY 5 8 1 : Map2D ℕ).deleteXY 5 6).tree 5
        = false) ∧
    ((∀ p ∈ ((Map2D.empty.setXY 5 6 0).setXY 5 8 1 : Map2D ℕ).tree, p.2 ≠ []) →
      ∀ p ∈ (((Map2D.empty.setXY 5 6 0).setXY 5 8 1 : Map2D ℕ).deleteXY 5 6).tree,
        p.2 ≠ []) :=
  deleteXY_present_key _ 5 6 (by decide) (by decide)

/-- C6: `equals` checks `!value` on the value fetched from the other map
before the strict comparison, so an entry whose genuinely equal stored
value is falsy makes `equals` return false. -/
theorem equals_falsy_value_unequal {T : Type} [DecidableEq T]
    (falsy : T → Bool) (m1 m2 : Map2D T) (x y : ℚ) (v : T)
    (ys : List (ℚ × T)) (hout : (x, ys) ∈ m1.tree) (hin : (y, v) ∈ ys)
    (hget : m2.getXY x y = some v) (hfalsy : falsy v = true) :
    Map2D.equals falsy m1 m2 = false := by
  unfold Map2D.equals
  by_cases hsz : m1.size ≠ m2.size
  · rw [if_pos hsz]
  · rw [if_neg hsz]
    apply List.all_eq_false.mpr
    refine ⟨(x, ys), hout, ?_⟩
    simp only [Bool.not_eq_true]
    apply List.all_eq_false.mpr
    refine ⟨(y, v), hin, ?_⟩
    simp only [hget, hfalsy, Bool.not_eq_true]
    simp

theorem equals_falsy_value_unequal_witness :
    Map2D.equals Map2D.jsFalsyInt
      (Map2D.empty.setXY 1 2 (0 : ℤ)) (Map2D.empty.setXY 1 2 (0 : ℤ)) = false :=
  equals_falsy_value_unequal Map2D.jsFalsyInt _ _ 1 2 0 [(2, 0)]
    (by decide) (by decide) (by decide) (by decide)

/-- C8: on a shared coordinate the stored value is whatever was last set:
`addXY` stores a freshly constructed `Vector2D`-shaped object (with the
fresh allocation identity), while `add` stores the exact object passed
in. -/
theorem set2d_add_addXY_last_wins (s : Set2D) (x y : ℚ) (v : JsObj) (r : ℕ)
    (hx : v.x = x) (hy : v.y = y) :
    ((s.add v).addXY x y r).tree.getXY x y = some ⟨x, y, r⟩ ∧
    ((s.addXY x y r).add v).tree.getXY x y = some v := by
  constructor
  · exact getXY_setXY_self _ x y _
  · unfold Set2D.add Set2D.addXY
    rw [hx, hy]
    exact getXY_setXY_self _ x y v

theorem set2d_add_addXY_last_wins_witness :
    ((Set2D.empty.add ⟨1, 2, 77⟩).addXY 1 2 99).tree.getXY 1 2
        = some ⟨1, 2, 99⟩ ∧
    ((Set2D.empty.addXY 1 2 99).add ⟨1, 2, 77⟩).tree.getXY 1 2
        = some ⟨1, 2, 77⟩ :=
  set2d_add_addXY_last_wins Set2D.empty 1 2 ⟨1, 2, 77⟩ 99 rfl rfl

/-! ## Iteration order (C4) -/

theorem jsHas_right_eq_false_of_nodup {K V : Type} [DecidableEq K]
    {l1 l2 : List (K × V)} {k : K} {b : V}
    (h : ((l1 ++ (k, b) :: l2).map Prod.fst).Nodup) : jsHas l2 k = false := by
  rw [jsHas_eq_false_iff]
  intro p hp hpk
  rw [List.map_append, List.map_cons] at h
  have h2 := (List.nodup_append.mp h).2.1
  rw [List.nodup_cons] at h2
  have hm : p.1 ∈ l2.map Prod.fst := List.mem_map_of_mem Prod.fst hp
  rw [hpk] at hm
  exact h2.1 hm

theorem hasXY_iff {T : Type} {m : Map2D T} {x y : ℚ} :
    m.hasXY x y = true ↔
      ∃ ys, jsGet m.tree x = some ys ∧ jsHas ys y = true := by
  unfold Map2D.hasXY
  rcases jsGet m.tree x <;> simp

/-- C4: iteration order.  First, re-setting a present key leaves the key
sequence unchanged; second, a key with a fresh outer `x` is appended at the
very end; third, a fresh `y` under a present outer `x` is inserted right
after the existing block of `x`-keys, everything else keeping its place;
and the spec's concrete example: inserting (123,321), (0,0), (1,1) in that
order yields exactly those keys in that order.  The `entries`/`values`
traversals walk the same sequence: their key/value projections are `keys`
and `values`. -/
theorem map2d_iteration_insertion_order {T : Type} :
    ((Map2D.empty.setXY 123 321 0 |>.setXY 0 0 0 |>.setXY 1 1 0 : Map2D ℕ).keys
      = [(123, 321), (0, 0), (1, 1)]) ∧
    (∀ (m : Map2D T) (x y : ℚ) (v : T),
      (m.tree.map Prod.fst).Nodup → m.hasXY x y = true →
      (m.setXY x y v).keys = m.keys) ∧
    (∀ (m : Map2D T) (x y : ℚ) (v : T),
      jsHas m.tree x = false →
      (m.setXY x y v).keys = m.keys ++ [(x, y)]) ∧
    (∀ (m : Map2D T) (x y : ℚ) (v : T) (ys : List (ℚ × T)),
      (m.tree.map Prod.fst).Nodup →
      jsGet m.tree x = some ys → jsHas ys y = false →
      ∃ A B, m.keys = A ++ B ∧ (m.setXY x y v).keys = A ++ (x, y) :: B ∧
        ∀ p ∈ B, p.1 ≠ x) ∧
    (∀ (m : Map2D T), m.entries.map Prod.fst = m.keys) ∧
    (∀ (m : Map2D T), m.entries.map Prod.snd = m.values) := by
  refine ⟨by decide, ?_, ?_, ?_, ?_, ?_⟩
  · intro m x y v hnd hpres
    obtain ⟨ys, hys, hyy⟩ := hasXY_iff.mp hpres
    obtain ⟨l1, l2, hdec, h1⟩ := jsGet_decomp hys
    have h2 : jsHas l2 x = false := jsHas_right_eq_false_of_nodup (hdec ▸ hnd)
    unfold Map2D.setXY Map2D.keys
    simp only [hys, Option.getD_some]
    rw [hdec, jsSet_decomp h1 h2]
    simp only [List.flatMap_append, List.flatMap_cons]
    congr 1
    congr 1
    have hfst : (jsSet ys y v).map Prod.fst = ys.map Prod.fst :=
      map_fst_jsSet_of_has hyy
    have hstep : (jsSet ys y v).map (fun q => (x, q.1))
        = ((jsSet ys y v).map Prod.fst).map (fun k => (x, k)) :=
      (List.map_map _ _ _).symm
    rw [hstep, hfst, List.map_map]
    rfl
  · intro m x y v habs
    unfold Map2D.setXY Map2D.keys
    rw [jsGet_eq_none habs]
    simp only [Option.getD_none]
    rw [jsSet_of_not_has (l := ([] : List (ℚ × T))) rfl,
      jsSet_of_not_has habs]
    simp
  · intro m x y v ys hnd hys hyy
    obtain ⟨l1, l2, hdec, h1⟩ := jsGet_decomp hys
    have h2 : jsHas l2 x = false := jsHas_right_eq_false_of_nodup (hdec ▸ hnd)
    refine ⟨l1.flatMap (fun p => p.2.map (fun q => (p.1, q.1)))
        ++ ys.map (fun q => (x, q.1)),
      l2.flatMap (fun p => p.2.map (fun q => (p.1, q.1))), ?_, ?_, ?_⟩
    · unfold Map2D.keys
      rw [hdec]
      simp [List.flatMap_append]
    · unfold Map2D.setXY Map2D.keys
      simp only [hys, Option.getD_some]
      rw [jsSet_of_not_has hyy, hdec, jsSet_decomp h1 h2]
      simp [List.flatMap_append]
    · intro p hp
      simp only [List.mem_flatMap, List.mem_map] at hp
      obtain ⟨pp, hpp, q, hq, rfl⟩ := hp
      intro hpx
      have := jsHas_eq_false_iff.mp h2 pp hpp
      exact this hpx
  · intro m
    unfold Map2D.entries Map2D.keys
    simp only [List.map_flatMap, List.map_map]
    rfl
  · intro m
    unfold Map2D.entries Map2D.values
    simp only [List.map_flatMap, List.map_map]
    rfl

theorem map2d_iteration_insertion_order_witness :
    (((Map2D.empty.setXY 1 1 0 |>.setXY 2 2 0 : Map2D ℕ).setXY 1 1 5).keys
        = (Map2D.empty.setXY 1 1 0 |>.setXY 2 2 0 : Map2D ℕ).keys) ∧
    (((Map2D.empty.setXY 1 1 0 : Map2D ℕ).setXY 2 2 0).keys
        = (Map2D.empty.setXY 1 1 0 : Map2D ℕ).keys ++ [(2, 2)]) ∧
    (∃ A B, (Map2D.empty.setXY 1 1 0 |>.setXY 2 2 0 : Map2D ℕ).keys = A ++ B ∧
      ((Map2D.empty.setXY 1 1 0 |>.setXY 2 2 0 : Map2D ℕ).setXY 1 3 0).keys
        = A ++ (1, 3) :: B ∧ ∀ p ∈ B, p.1 ≠ 1) :=
  ⟨(map2d_iteration_insertion_order (T := ℕ)).2.1 _ 1 1 5 (by decide) (by decide),
   (map2d_iteration_insertion_order (T := ℕ)).2.2.1 _ 2 2 0 (by decide),
   (map2d_iteration_insertion_order (T := ℕ)).2.2.2.1 _ 1 3 0 [(1, 0)]
     (by decide) (by decide) (by decide)⟩

/-! ## `getNearSet` rings (C7) -/

theorem nearLoopBody_eq_specRing (x y e : ℚ) :
    Vector2D.nearLoopBody x y e = Vector2D.specRing ⟨x, y⟩ e := rfl

theorem nearLoop_eq_specNearSet (x y : ℚ) (n : ℕ) :
    Vector2D.nearLoop x y n = Vector2D.specNearSet ⟨x, y⟩ n := by
  induction n with
  | zero => rfl
  | succ n ih =>
    unfold Vector2D.nearLoop
    rw [ih]
    unfold Vector2D.specNearSet
    rw [List.range_succ]
    simp only [List.reverse_append, List.reverse_singleton,
      List.singleton_append, List.flatMap_cons]
    rw [nearLoopBody_eq_specRing]

theorem nearLoop_eq_nil_iff (x y : ℚ) (n : ℕ) :
    Vector2D.nearLoop x y n = [] ↔ n = 0 := by
  cases n with
  | zero => simp [Vector2D.nearLoop]
  | succ n => simp [Vector2D.nearLoop, Vector2D.nearLoopBody]

theorem nearLoop_length (x y : ℚ) (n : ℕ) :
    (Vector2D.nearLoop x y n).length = 8 * n := by
  induction n with
  | zero => rfl
  | succ n ih =>
    simp only [Vector2D.nearLoop, List.length_append, ih,
      Vector2D.nearLoopBody, List.length_cons, List.length_nil]
    omega

theorem jsRound_one : jsRound 1 = 1 := by
  rw [jsRound]
  exact Int.floor_eq_iff.mpr (by norm_num)

theorem jsRound_neg_five_halves : jsRound (-5 / 2 : ℚ) = -2 := by
  rw [jsRound]
  exact Int.floor_eq_iff.mpr (by norm_num)

theorem jsRound_abs_neg_five_halves : jsRound |(-5 / 2 : ℚ)| = 3 := by
  rw [jsRound, show |(-5 / 2 : ℚ)| = 5 / 2 by norm_num]
  exact Int.floor_eq_iff.mpr (by norm_num)

/-- C7 (amended): `getNearSet(pt, radius)` emits, for each integer ring
from `|round(radius)|` (round half toward positive infinity, then absolute
value — not `round(|radius|)`) down to 1 in descending order, the 8
surrounding points of that ring in NW, N, NE, W, E, SW, S, SE order, outer
rings first; the result is empty exactly when `round(radius) = 0`.  The
spec's concrete example at radius 1 follows. -/
theorem getNearSet_rings (pt : Vector2D) (radius : ℚ) :
    Vector2D.getNearSet pt radius
        = Vector2D.specNearSet pt (jsRound radius).natAbs ∧
    (Vector2D.getNearSet pt radius = [] ↔ jsRound radius = 0) ∧
    Vector2D.getNearSet Vector2D.zero 1
        = [⟨-1, -1⟩, ⟨0, -1⟩, ⟨1, -1⟩, ⟨-1, 0⟩, ⟨1, 0⟩,
           ⟨-1, 1⟩, ⟨0, 1⟩, ⟨1, 1⟩] := by
  refine ⟨?_, ?_, ?_⟩
  · unfold Vector2D.getNearSet
    exact nearLoop_eq_specNearSet pt.x pt.y _
  · unfold Vector2D.getNearSet
    rw [nearLoop_eq_nil_iff]
    exact Int.natAbs_eq_zero
  · show Vector2D.nearLoop 0 0 (jsRound 1).natAbs = _
    rw [jsRound_one]
    show Vector2D.nearLoopBody 0 0 ((0 : ℕ) + 1) ++ Vector2D.nearLoop 0 0 0 = _
    simp only [Vector2D.nearLoop, Vector2D.nearLoopBody, List.append_nil]
    norm_num

/-- C7 counterexample: at radius `-5/2` the code produces 16 points (2
rings, from `|round(-5/2)| = 2`), while the claim's formula
`round(|radius|) = 3` predicts 24 points and the claim's clause about
negative radii predicts an empty result; the code result matches
neither. -/
theorem getNearSet_c7_counterexample :
    (Vector2D.getNearSet Vector2D.zero (-5 / 2)).length = 16 ∧
    8 * (jsRound |(-5 / 2 : ℚ)|).natAbs = 24 ∧
    (Vector2D.getNearSet Vector2D.zero (-5 / 2)).length
      ≠ 8 * (jsRound |(-5 / 2 : ℚ)|).natAbs ∧
    Vector2D.getNearSet Vector2D.zero (-5 / 2) ≠ [] := by
  have hlen : (Vector2D.getNearSet Vector2D.zero (-5 / 2)).length = 16 := by
    show (Vector2D.nearLoop 0 0 (jsRound (-5 / 2)).natAbs).length = 16
    rw [jsRound_neg_five_halves, nearLoop_length]
    rfl
  have h24 : 8 * (jsRound |(-5 / 2 : ℚ)|).natAbs = 24 := by
    rw [jsRound_abs_neg_five_halves]
    rfl
  refine ⟨hlen, h24, ?_, ?_⟩
  · rw [hlen, h24]
    omega
  · intro hnil
    rw [hnil] at hlen
    simp at hlen

/-! ## Bulk constructor (C3) -/

/-- C3 (amended): the bulk constructor produces the empty container exactly
when the coordinate sequence is absent or empty or the values sequence is
absent; when both sequences are present and the coordinates nonempty, the
bulk load is applied even on mismatched lengths (missing values are read as
`undefined`), and the size is the raw coordinate count. -/
theorem mkMap2D_empty_iff {T : Type} :
    (∀ (vectors : Option (List (ℚ × ℚ))) (elements : Option (List T)),
      Map2D.mkMap2D vectors elements = Map2D.empty ↔
        vectors = none ∨ vectors = some [] ∨ elements = none) ∧
    (∀ (vs : List (ℚ × ℚ)) (es : List T), vs ≠ [] →
      (Map2D.mkMap2D (some vs) (some es)).size = (vs.length : ℤ)) := by
  constructor
  · intro vectors elements
    constructor
    · intro h
      rcases vectors with _ | vs
      · exact Or.inl rfl
      rcases elements with _ | es
      · exact Or.inr (Or.inr rfl)
      refine Or.inr (Or.inl ?_)
      rcases vs with _ | ⟨a, l⟩
      · rfl
      exfalso
      simp only [Map2D.mkMap2D] at h
      rw [if_pos (by simp)] at h
      have hsz := congrArg Map2D.size h
      simp only [Map2D.empty] at hsz
      simp at hsz
      omega
    · intro h
      rcases h with rfl | rfl | rfl
      · rfl
      · rcases elements with _ | es <;> rfl
      · rcases vectors with _ | vs <;> rfl
  · intro vs es hne
    simp only [Map2D.mkMap2D]
    rw [if_pos (by simpa [List.length_pos] using hne)]

theorem mkMap2D_empty_iff_witness :
    (Map2D.mkMap2D (T := ℤ) none none = Map2D.empty) ∧
    ((Map2D.mkMap2D (some [(1, 2)]) (some ([] : List ℤ))).size = 1) :=
  ⟨((mkMap2D_empty_iff (T := ℤ)).1 none none).mpr (Or.inl rfl),
   by
    have h := (mkMap2D_empty_iff (T := ℤ)).2 [(1, 2)] [] (by simp)
    simpa using h⟩

/-- C3 counterexample: with coordinates `[(1,2),(3,4)]` and a mismatched
one-element values array, the constructor applies the bulk load — size 2
and two stored entries, the second of them `undefined` — rather than
producing the empty container the claim demands. -/
theorem mkMap2D_c3_counterexample :
    Map2D.mkMap2D (some [(1, 2), (3, 4)]) (some [(10 : ℤ)]) ≠ Map2D.empty ∧
    (Map2D.mkMap2D (some [(1, 2), (3, 4)]) (some [(10 : ℤ)])).size = 2 ∧
    (Map2D.mkMap2D (some [(1, 2), (3, 4)]) (some [(10 : ℤ)])).tree
      = [(1, [(2, some 10)]), (3, [(4, none)])] := by
  refine ⟨by decide, by decide, by decide⟩

/-! ## JSON round-trip (C1) -/

theorem mem_values_of_mem_treeTriples {T : Type} {m : Map2D T}
    {t : ℚ × ℚ × T} (h : t ∈ m.treeTriples) : t.2.2 ∈ m.values := by
  unfold Map2D.treeTriples at h
  unfold Map2D.values
  simp only [List.mem_flatMap, List.mem_map] at h ⊢
  obtain ⟨p, hp, q, hq, rfl⟩ := h
  exact ⟨p, hp, q, hq, rfl⟩

theorem toJSON_eq_map_treeTriples {T E : Type} (m : Map2D T) (ser : T → E) :
    m.toJSON ser = m.treeTriples.map (fun t => (t.1, t.2.1, ser t.2.2)) := by
  unfold Map2D.toJSON Map2D.entries Map2D.treeTriples
  simp only [List.map_flatMap, List.map_map]
  rfl

theorem reviveFrom_append {T E : Type} (f : E → T) (acc : Map2D T)
    (l1 l2 : List (ℚ × ℚ × E)) :
    Map2D.reviveFrom f acc (l1 ++ l2)
      = Map2D.reviveFrom f (Map2D.reviveFrom f acc l1) l2 := by
  unfold Map2D.reviveFrom
  rw [List.foldl_append]

theorem reviveFrom_cons {T E : Type} (f : E → T) (acc : Map2D T)
    (t : ℚ × ℚ × E) (l : List (ℚ × ℚ × E)) :
    Map2D.reviveFrom f acc (t :: l)
      = Map2D.reviveFrom f (acc.setXY t.1 t.2.1 (f t.2.2)) l := rfl

theorem reviveFrom_map_inverse {T E : Type} (f : E → T) (g : T → E)
    (l : List (ℚ × ℚ × T)) (acc : Map2D T)
    (hinv : ∀ t ∈ l, f (g t.2.2) = t.2.2) :
    Map2D.reviveFrom f acc (l.map (fun t => (t.1, t.2.1, g t.2.2)))
      = Map2D.reviveFrom id acc l := by
  induction l generalizing acc with
  | nil => rfl
  | cons hd tl ih =>
    rw [List.map_cons, reviveFrom_cons, reviveFrom_cons]
    simp only [id_eq]
    rw [hinv hd (List.mem_cons_self hd tl)]
    exact ih _ (fun t ht => hinv t (List.mem_cons_of_mem hd ht))

theorem reviveFrom_bucket {T : Type} (x : ℚ) (ys : List (ℚ × T)) :
    ∀ (done : List (ℚ × List (ℚ × T))) (pb : List (ℚ × T)) (sz : ℤ),
    jsHas done x = false → (∀ q ∈ ys, jsHas pb q.1 = false) →
    (ys.map Prod.fst).Nodup →
    Map2D.reviveFrom id ⟨done ++ [(x, pb)], sz⟩
        (ys.map (fun q => (x, q.1, q.2)))
      = ⟨done ++ [(x, pb ++ ys)], sz + ys.length⟩ := by
  induction ys with
  | nil =>
    intro done pb sz h1 h2 h3
    simp [Map2D.reviveFrom]
  | cons hd tl ih =>
    intro done pb sz h1 h2 h3
    have hget : jsGet (done ++ [(x, pb)]) x = some pb := by
      rw [jsGet_append_left h1, jsGet_singleton]
    have hpb : jsHas pb hd.1 = false := h2 hd (List.mem_cons_self hd tl)
    have e2 : jsSet pb hd.1 hd.2 = pb ++ [(hd.1, hd.2)] := jsSet_of_not_has hpb
    have e3 : jsSet (done ++ [(x, pb)]) x (pb ++ [(hd.1, hd.2)])
        = done ++ [(x, pb ++ [(hd.1, hd.2)])] :=
      jsSet_decomp h1
        (show jsHas ([] : List (ℚ × List (ℚ × T))) x = false from rfl)
    have hstep : (⟨done ++ [(x, pb)], sz⟩ : Map2D T).setXY x hd.1 hd.2
        = ⟨done ++ [(x, pb ++ [(hd.1, hd.2)])], sz + 1⟩ := by
      simp [Map2D.setXY, hget, e2, e3, hpb]
    rw [List.map_cons, reviveFrom_cons]
    simp only [id_eq]
    rw [hstep]
    have h2' : ∀ q ∈ tl, jsHas (pb ++ [(hd.1, hd.2)]) q.1 = false := by
      intro q hq
      rw [jsHas_append, h2 q (List.mem_cons_of_mem hd hq)]
      rw [List.map_cons, List.nodup_cons] at h3
      have hne : q.1 ≠ hd.1 := by
        intro he
        have hm : q.1 ∈ tl.map Prod.fst := List.mem_map_of_mem Prod.fst hq
        rw [he] at hm
        exact h3.1 hm
      simp [jsHas, Ne.symm hne]
    have h3' : (tl.map Prod.fst).Nodup := by
      rw [List.map_cons, List.nodup_cons] at h3
      exact h3.2
    rw [ih done (pb ++ [(hd.1, hd.2)]) (sz + 1) h1 h2' h3']
    exact congrArg₂ Map2D.mk (by simp)
      (by simp only [List.length_cons]; push_cast; omega)

theorem reviveFrom_tree {T : Type} (t2 : List (ℚ × List (ℚ × T))) :
    ∀ (acc : List (ℚ × List (ℚ × T))) (sz : ℤ),
    (t2.map Prod.fst).Nodup →
    (∀ p ∈ t2, (p.2.map Prod.fst).Nodup) →
    (∀ p ∈ t2, p.2 ≠ []) →
    (∀ p ∈ t2, jsHas acc p.1 = false) →
    Map2D.reviveFrom id ⟨acc, sz⟩
        (t2.flatMap (fun p => p.2.map (fun q => (p.1, q.1, q.2))))
      = ⟨acc ++ t2, sz + (t2.map (fun p => (p.2.length : ℤ))).sum⟩ := by
  induction t2 with
  | nil =>
    intro acc sz _ _ _ _
    simp [Map2D.reviveFrom]
  | cons hd rest ih =>
    intro acc sz hnd hbnd hbne hacc
    obtain ⟨x, ys⟩ := hd
    have hysne : ys ≠ [] := hbne (x, ys) (List.mem_cons_self _ _)
    rcases ys with _ | ⟨⟨y1, v1⟩, ys2⟩
    · exact absurd rfl hysne
    have haccx : jsHas acc x = false :=
      hacc (x, (y1, v1) :: ys2) (List.mem_cons_self _ _)
    rw [List.flatMap_cons, reviveFrom_append]
    have hbucket : Map2D.reviveFrom id (⟨acc, sz⟩ : Map2D T)
        ((((y1, v1) :: ys2).map (fun q => (x, q.1, q.2))))
        = ⟨acc ++ [(x, (y1, v1) :: ys2)], sz + ((y1, v1) :: ys2).length⟩ := by
      have e1 : jsGet acc x = none := jsGet_eq_none haccx
      have e2 : jsSet ([] : List (ℚ × T)) y1 v1 = [(y1, v1)] := rfl
      have e3 : jsSet acc x [(y1, v1)] = acc ++ [(x, [(y1, v1)])] :=
        jsSet_of_not_has haccx
      have hstep : (⟨acc, sz⟩ : Map2D T).setXY x y1 v1
          = ⟨acc ++ [(x, [(y1, v1)])], sz + 1⟩ := by
        simp [Map2D.setXY, e1, e2, e3]
      rw [List.map_cons, reviveFrom_cons]
      simp only [id_eq]
      rw [hstep]
      have hbk := hbnd (x, (y1, v1) :: ys2) (List.mem_cons_self _ _)
      rw [List.map_cons, List.nodup_cons] at hbk
      have h2 : ∀ q ∈ ys2, jsHas [(y1, v1)] q.1 = false := by
        intro q hq
        have hne : q.1 ≠ y1 := by
          intro he
          have hm : q.1 ∈ ys2.map Prod.fst := List.mem_map_of_mem Prod.fst hq
          rw [he] at hm
          exact hbk.1 hm
        simp [jsHas, Ne.symm hne]
      rw [reviveFrom_bucket x ys2 acc [(y1, v1)] (sz + 1) haccx h2 hbk.2]
      exact congrArg₂ Map2D.mk (by simp)
        (by simp only [List.length_cons]; push_cast; omega)
    rw [hbucket]
    have hnd2 : (rest.map Prod.fst).Nodup := by
      rw [List.map_cons, List.nodup_cons] at hnd
      exact hnd.2
    have hacc2 : ∀ p ∈ rest,
        jsHas (acc ++ [(x, (y1, v1) :: ys2)]) p.1 = false := by
      intro p hp
      rw [jsHas_append, hacc p (List.mem_cons_of_mem _ hp)]
      rw [List.map_cons, List.nodup_cons] at hnd
      have hne : p.1 ≠ x := by
        intro he
        have hm : p.1 ∈ rest.map Prod.fst := List.mem_map_of_mem Prod.fst hp
        rw [he] at hm
        exact hnd.1 hm
      simp [jsHas, Ne.symm hne]
    rw [ih (acc ++ [(x, (y1, v1) :: ys2)]) (sz + ((y1, v1) :: ys2).length)
      hnd2 (fun p hp => hbnd p (List.mem_cons_of_mem _ hp))
      (fun p hp => hbne p (List.mem_cons_of_mem _ hp)) hacc2]
    exact congrArg₂ Map2D.mk (by simp)
      (by rw [List.map_cons, List.sum_cons]
          simp only [List.length_cons]
          push_cast
          omega)

theorem equals_self_of_nodup {T : Type} [DecidableEq T] (falsy : T → Bool)
    (m : Map2D T) (hnd : (m.tree.map Prod.fst).Nodup)
    (hbnd : ∀ p ∈ m.tree, (p.2.map Prod.fst).Nodup)
    (htruthy : ∀ v ∈ m.values, falsy v = false) :
    Map2D.equals falsy m m = true := by
  unfold Map2D.equals
  rw [if_neg (by simp)]
  apply List.all_eq_true.mpr
  intro p hp
  apply List.all_eq_true.mpr
  intro q hq
  have hget : m.getXY p.1 q.1 = some q.2 := by
    unfold Map2D.getXY
    rw [jsGet_eq_some_of_mem_nodup hnd hp]
    exact jsGet_eq_some_of_mem_nodup (hbnd p hp) hq
  have hf : falsy q.2 = false := by
    apply htruthy
    unfold Map2D.values
    simp only [List.mem_flatMap, List.mem_map]
    exact ⟨p, hp, q, hq, rfl⟩
  simp only [hget, hf]
  simp

/-- C1 (amended): for every well-formed `Map2D` (the states the container
operations keep: duplicate-free keys, no empty buckets, and a size counter
equal to the stored entry count) whose stored values are all truthy, and
every serializer/deserializer pair that are mutual inverses on the stored
values, `Map2D.revive(m.toJSON(ser), deser).equals(m)` returns true.  As
stated — for every `Map2D` — the property fails both for stored falsy
values and for reachable states whose size counter has drifted (see the
counterexample). -/
theorem map2d_roundtrip_equals {T E : Type} [DecidableEq T]
    (falsy : T → Bool) (ser : T → E) (deser : E → T) (m : Map2D T)
    (hwf : m.WF)
    (hinv : ∀ v ∈ m.values, deser (ser v) = v)
    (htruthy : ∀ v ∈ m.values, falsy v = false) :
    Map2D.equals falsy (Map2D.revive (m.toJSON ser) deser) m = true := by
  obtain ⟨hnd, hbnd, hbne, hsz⟩ := hwf
  have hrev : Map2D.revive (m.toJSON ser) deser = m := by
    rw [toJSON_eq_map_treeTriples]
    rw [show Map2D.revive (m.treeTriples.map (fun t => (t.1, t.2.1, ser t.2.2)))
          deser
        = Map2D.reviveFrom deser Map2D.empty
            (m.treeTriples.map (fun t => (t.1, t.2.1, ser t.2.2))) from rfl]
    rw [reviveFrom_map_inverse deser ser _ _
      (fun t ht => hinv t.2.2 (mem_values_of_mem_treeTriples ht))]
    have := reviveFrom_tree m.tree [] 0 hnd hbnd hbne (fun p _ => rfl)
    rw [show m.treeTriples
        = m.tree.flatMap (fun p => p.2.map (fun q => (p.1, q.1, q.2))) from rfl]
    rw [show (Map2D.empty : Map2D T) = ⟨[], 0⟩ from rfl]
    rw [this]
    rcases m with ⟨tree, msize⟩
    simp only [List.nil_append, zero_add]
    simp only at hsz
    rw [hsz]
  rw [hrev]
  exact equals_self_of_nodup falsy m hnd hbnd htruthy

theorem map2d_roundtrip_equals_witness :
    Map2D.equals Map2D.jsFalsyInt
      (Map2D.revive (((Map2D.empty.setXY 1 2 (7 : ℤ)).setXY 3 4 9).toJSON id) id)
      ((Map2D.empty.setXY 1 2 (7 : ℤ)).setXY 3 4 9) = true :=
  map2d_roundtrip_equals Map2D.jsFalsyInt id id _
    ⟨by decide, by decide, by decide, by decide⟩
    (fun v _ => rfl) (by decide)

/-- C1 counterexample: with the identity serializer/deserializer pair
(mutual inverses on everything), the round-trip `equals` check fails on the
map storing the falsy value `0` at `(0, 0)`, and also on the reachable
state produced by deleting an absent key (whose size counter drifted to 0
while one entry is still stored). -/
theorem map2d_roundtrip_c1_counterexample :
    Map2D.equals Map2D.jsFalsyInt
      (Map2D.revive ((Map2D.empty.setXY 0 0 (0 : ℤ)).toJSON id) id)
      (Map2D.empty.setXY 0 0 (0 : ℤ)) = false ∧
    Map2D.equals Map2D.jsFalsyInt
      (Map2D.revive (((Map2D.empty.setXY 1 1 (5 : ℤ)).deleteXY 9 9).toJSON id) id)
      ((Map2D.empty.setXY 1 1 (5 : ℤ)).deleteXY 9 9) = false := by
  refine ⟨by decide, by decide⟩

end SimpleShapeMath
